import Mathlib

/-!
A shallow embedding of the authorization, session, token-cipher and
request-validation core of a multi-user to-do-list HTTP API
(`src/server.js` together with its util, crypto, validation and errors
modules), and theorems settling the specification's claims about it.

Modelling conventions: byte buffers are `List Nat` with entries below 256;
JavaScript strings are Lean `String`s (the inputs involved are ASCII, so
code-unit slicing coincides with character slicing); `undefined` is `none`
in an `Option`; database tables are explicit lists of row structures, and a
parameterized `SELECT` becomes a filter or `find?` over them.  External
collaborators (Node's `crypto` module, `JSON.stringify`/`JSON.parse`, the
base64 transport decoding of `Buffer`) enter either as concrete executable
definitions or as function parameters whose library contracts appear as
hypotheses of the theorems that need them.
-/

namespace Todo

/-- The error of `errors.js`: `ClientError` carries an HTTP status that
defaults to 400 when a throw site does not set one, a machine-readable code
and a human-readable message.  (The `data` and `headers` fields are omitted:
no claim concerns them.) -/
structure ClientErr where
  status : Nat := 400
  code : String
  message : String
  deriving Repr, DecidableEq

/-- A permission role as stored in `todo.permissions.role`, restricted by the
schema to `ENUM('owner', 'write', 'read')`. -/
inductive Role where
  | read
  | write
  | owner
  deriving Repr, DecidableEq

/-- The ordered role list `["read", "write", "owner"]` of `hasRole` in
`util.js`. -/
def roles : List Role := [.read, .write, .owner]

/-- `util.js` `hasRole`: `roles.indexOf(role) >= roles.indexOf(required)`. -/
def hasRole (role required : Role) : Bool :=
  roles.indexOf required ≤ roles.indexOf role

/-- The rank each role has under the order read(0) < write(1) < owner(2) the
specification names. -/
def roleRank : Role → Nat
  | .read => 0
  | .write => 1
  | .owner => 2

/-- A row of `todo.permissions`: `userId` is `NULL` (`none`) for the
anonymous/public grant on a list. -/
structure PermRow where
  userId : Option Nat
  listId : Nat
  role : Role
  deriving Repr, DecidableEq

/-- The row filter of the `checkPermissions` query,
`WHERE IF(? IS NOT NULL, userId = ?, userId IS NULL) AND listId = ?`: a
non-null identity matches only its own rows, a null identity only the
anonymous rows of the list. -/
def permMatches (row : PermRow) (userId : Option Nat) (listId : Nat) : Bool :=
  (match userId with
   | some uid => row.userId == some uid
   | none => row.userId == none) && row.listId == listId

/-- The result rows of the `checkPermissions` query. -/
def permQuery (perms : List PermRow) (userId : Option Nat) (listId : Nat) : List PermRow :=
  perms.filter (fun row => permMatches row userId listId)

/-- The error `checkPermissions` throws. -/
def insufficientPerms : ClientErr :=
  { status := 401, code := "insufficient-perms", message := "Insufficient permissions" }

/-- `util.js` `checkPermissions`: run the permission query and fail unless a
row came back whose role passes `hasRole` against the required one
(`results.length === 0 || !hasRole(results[0].role, role)` throws). -/
def checkPermissions (perms : List PermRow) (userId : Option Nat) (listId : Nat)
    (role : Role) : Except ClientErr Unit :=
  match permQuery perms userId listId with
  | [] => .error insufficientPerms
  | row :: _ => if hasRole row.role role then .ok () else .error insufficientPerms

/-- The digit class `\d` of the strict-integer regular expression. -/
def isDig (c : Char) : Bool := '0' ≤ c && c ≤ '9'

/-- The test `/^([-+])?(\d+|Infinity)$/` of `validation.js` `parseIntStrict`,
on the character list of the input: an optional sign, then one or more
digits or the literal `Infinity`, anchored at both ends. -/
def strictIntMatch : List Char → Bool
  | [] => false
  | c :: rest =>
      let body := if c == '-' || c == '+' then rest else c :: rest
      (!body.isEmpty && body.all isDig) || body == "Infinity".toList

/-- The value `Number(x)` takes on a matching string.  Digit strings evaluate
exactly here while JavaScript rounds them to the nearest double; none of the
claims depend on the value, only on number-versus-NaN. -/
inductive JsNumber where
  | int (n : Int)
  | inf (neg : Bool)
  deriving Repr, DecidableEq

/-- The numeric value of a digit string. -/
def digitsVal (cs : List Char) : Nat :=
  cs.foldl (fun acc c => acc * 10 + (c.toNat - '0'.toNat)) 0

/-- `Number(x)` for a string already known to match the strict-integer
expression. -/
def numberOfChars (cs : List Char) : JsNumber :=
  match cs with
  | '-' :: rest =>
      if rest == "Infinity".toList then .inf true else .int (-(digitsVal rest : Int))
  | '+' :: rest =>
      if rest == "Infinity".toList then .inf false else .int (digitsVal rest)
  | _ => if cs == "Infinity".toList then .inf false else .int (digitsVal cs)

/-- `validation.js` `parseIntStrict`: `none` is JavaScript's `NaN`. -/
def parseIntStrict (x : String) : Option JsNumber :=
  if strictIntMatch x.toList then some (numberOfChars x.toList) else none

/-- The error each route throws on a non-numeric route parameter. -/
def invalidRouteParamErr : ClientErr :=
  { code := "invalid-route-param",
    message := "Invalid route parameter. A valid number is required." }

/-- The route-parameter pattern every `/:listId`-style handler of `server.js`
uses: `parseIntStrict`, then `if (isNaN(v))` throw an
`invalid-route-param` client error. -/
def parseRouteParam (x : String) : Except ClientErr JsNumber :=
  match parseIntStrict x with
  | none => .error invalidRouteParamErr
  | some v => .ok v

/-- Node's `Buffer.compare` (lexicographic `memcmp` order) instrumented with
the number of byte comparisons its loop performs: the loop returns at the
first differing byte, so the count is one more than the length of the common
prefix.  The first component is the comparison result (-1, 0 or 1), the
second the number of byte comparisons executed. -/
def bufCompareRun : List Nat → List Nat → Int × Nat
  | [], [] => (0, 0)
  | [], _ :: _ => (-1, 0)
  | _ :: _, [] => (1, 0)
  | a :: restA, b :: restB =>
      if a < b then (-1, 1)
      else if b < a then (1, 1)
      else
        let r := bufCompareRun restA restB
        (r.1, r.2 + 1)

/-- `Buffer.compare(a, b)` as the Basic path of `authenticate` calls it. -/
def bufCompare (a b : List Nat) : Int := (bufCompareRun a b).1

/-- A row of `todo.users` as the Basic path selects it:
`SELECT id as userId, password as hash, salt`. -/
structure UserRow where
  userId : Nat
  username : String
  hash : List Nat
  salt : List Nat
  deriving Repr, DecidableEq

/-- A row of `todo.sessions`. -/
structure SessionRow where
  id : Nat
  userId : Nat
  expirationDate : Int
  deriving Repr, DecidableEq

/-- The result object of `util.js` `authenticate`; the `sessionId` key is
absent (`none`) except on the Bearer path. -/
structure AuthResult where
  type : String
  userId : Option Nat
  sessionId : Option Nat := none
  deriving Repr, DecidableEq

/-- The `require` argument of `authenticate`: `true` (the default),
`false`, `'credentials'` or `'token'`. -/
inductive Require where
  | required
  | optional
  | credentials
  | token
  deriving Repr, DecidableEq

/-- `String.prototype.startsWith`, via character lists so that it computes by
reduction. -/
def jsStartsWith (s pre : String) : Bool := pre.toList.isPrefixOf s.toList

/-- `s.slice(n)` for a non-negative `n`, via character lists. -/
def jsDrop (s : String) (n : Nat) : String := String.mk (s.toList.drop n)

/-- The `username:password` split of the Basic path: `i = indexOf(':')`,
`username = slice(0, i)`, `password = slice(i + 1)`.  When no colon occurs
`indexOf` is `-1`, so `slice(0, -1)` drops the last character and
`slice(0)` is the whole string. -/
def splitCredentials (cred : String) : String × String :=
  match cred.toList.findIdx? (fun c => c == ':') with
  | some i => (String.mk (cred.toList.take i), String.mk (cred.toList.drop (i + 1)))
  | none => (String.mk (cred.toList.take (cred.toList.length - 1)), cred)

/-- The `missing-user` error of the Basic path. -/
def missingUserErr : ClientErr :=
  { status := 401, code := "missing-user", message := "User not found." }

/-- The `invalid-password` error of the Basic path. -/
def invalidPasswordErr : ClientErr :=
  { status := 401, code := "invalid-password", message := "Invalid password." }

/-- The `expired-session` error of the Bearer path. -/
def expiredSessionErr : ClientErr :=
  { status := 401, code := "expired-session", message := "Session has expired" }

/-- The `auth-required` error thrown when no scheme matched and `require` is
truthy. -/
def authRequiredErr : ClientErr :=
  { status := 401, code := "auth-required", message := "Authentication required" }

/-- `util.js` `authenticate`, over explicit store rows.  External pieces are
parameters: `hashPassword` is Node's `crypto.scrypt`; `b64utf8` is
`Buffer.from(x, 'base64').toString('utf8')`, which is total in Node;
`tokenOpen` is the token cipher's `decrypt` composed with reading the
`sessionId` payload field (instantiated with `decrypt` below in the
theorems).  `now` is the store's `NOW()`.  The Basic branch runs when the
header starts with `Basic ` and `require` is not the string `'token'`; the
Bearer branch when it starts with `Bearer ` and `require` is not
`'credentials'`; the session query is
`WHERE id = ? AND expirationDate >= NOW()`. -/
def authenticate (users : List UserRow) (sessions : List SessionRow) (now : Int)
    (hashPassword : String → List Nat → List Nat) (b64utf8 : String → String)
    (tokenOpen : String → Except ClientErr Nat)
    (header : Option String) (require : Require) : Except ClientErr AuthResult :=
  match header with
  | some auth =>
      if jsStartsWith auth "Basic " && require != Require.token then
        let credentials := b64utf8 (jsDrop auth 6)
        let (username, password) := splitCredentials credentials
        match users.find? (fun u => u.username == username) with
        | none => .error missingUserErr
        | some u =>
            if bufCompare u.hash (hashPassword password u.salt) != 0 then
              .error invalidPasswordErr
            else .ok { type := "credentials", userId := some u.userId }
      else if jsStartsWith auth "Bearer " && require != Require.credentials then
        match tokenOpen (jsDrop auth 7) with
        | .error e => .error e
        | .ok sessionId =>
            match sessions.find? (fun s => s.id == sessionId && decide (now ≤ s.expirationDate)) with
            | none => .error expiredSessionErr
            | some s => .ok { type := "token", userId := some s.userId, sessionId := some sessionId }
      else if require != Require.optional then .error authRequiredErr
      else .ok { type := "none", userId := none }
  | none =>
      if require != Require.optional then .error authRequiredErr
      else .ok { type := "none", userId := none }

/-- A JSON value, as parsed request bodies are: numbers are modelled as
integers (no claim depends on non-integral numbers) and objects as key-value
lists with distinct keys, as JavaScript objects and parsed JSON have. -/
inductive Json where
  | null
  | bool (b : Bool)
  | num (n : Int)
  | str (s : String)
  | arr (elems : List Json)
  | obj (fields : List (String × Json))
  deriving Repr

/-- `validation.js` `jsonType` on an actual value.  `none` models
JavaScript's `undefined`, which the `value == null` test also sends to
`'null'`. -/
def jsonType : Option Json → String
  | none => "null"
  | some .null => "null"
  | some (.arr _) => "array"
  | some (.obj _) => "object"
  | some (.str _) => "string"
  | some (.num _) => "number"
  | some (.bool _) => "boolean"

mutual
/-- A validation shape as `server.js` builds them: a schema-by-example JSON
value.  `new Optional(...)` wrappers occur in the source only as object
field values, which the `SField` grammar records. -/
inductive Shape where
  | jnull
  | jbool (b : Bool)
  | jnum (n : Int)
  | jstr (s : String)
  | jarr (elems : List Shape)
  | jobj (fields : List (String × SField))
  deriving Repr

/-- An object field of a shape: a plain (required) shape or one wrapped in
`new Optional(...)`. -/
inductive SField where
  | req (s : Shape)
  | opt (s : Shape)
  deriving Repr
end

/-- `jsonType` of the expected example value: the required JSON type of a
slot. -/
def shapeType : Shape → String
  | .jnull => "null"
  | .jarr _ => "array"
  | .jobj _ => "object"
  | .jstr _ => "string"
  | .jnum _ => "number"
  | .jbool _ => "boolean"

/-- The errors `jsonValidate` throws, each with the data it carries.
`contentType` and `typeMismatch` are code `invalid-body`, `cannotBeEmpty`
and `missingFields` are code `missing-fields`, `unexpectedFields` is code
`unexpected-fields`; all use the default 400 status. -/
inductive VErr where
  | contentType
  | typeMismatch (path : Option String) (expected : Shape)
  | cannotBeEmpty (path : Option String)
  | missingFields (path : Option String) (keys : List String)
  | unexpectedFields (path : Option String) (keys : List String)
  deriving Repr

/-- `validation.js` `join`: join the accumulated path and the new part with a
dot, filtering out empty (falsy) parts; `none` is the `path=null` default. -/
def joinPath (path : Option String) (part : String) : String :=
  String.intercalate "."
    (((match path with | none => [] | some s => [s]) ++ [part]).filter (fun s => !s.isEmpty))

/-- JavaScript property lookup `actual[key]`: `none` is `undefined`. -/
def lookupJs (kvs : List (String × Json)) (k : String) : Option Json :=
  (kvs.find? (fun p => p.1 == k)).map (fun p => p.2)

/-- `validation.js` `minus`: everything in `arr` that is not in `arr2`. -/
def minus (arr arr2 : List String) : List String :=
  arr.filter (fun e => !arr2.contains e)

/-- The `expected[key] instanceof Optional` test on a shape's field list. -/
def isOptionalKey (fields : List (String × SField)) (k : String) : Bool :=
  match fields.find? (fun p => p.1 == k) with
  | some (_, .opt _) => true
  | _ => false

/-- The skip test the `Optional` branch of `jsonValidate` applies to the
actual value: `actual == null` (so `undefined` or `null`) or
`actual === ''`. -/
def isSkippable (actual : Option Json) : Bool :=
  match actual with
  | none => true
  | some .null => true
  | some (.str s) => s.isEmpty
  | _ => false

/-- An upper bound used by the termination measure of `jsonValidate`: the
shape an array element is checked against is an element of the template (or
the `undefined`-like default when the template is empty). -/
theorem sizeOf_getD_lt (tmpl : List Shape) (n : Nat) :
    sizeOf (tmpl[n]?.getD Shape.jnull) < 1 + sizeOf tmpl := by
  induction tmpl generalizing n with
  | nil => simp
  | cons head tail ih =>
      cases n with
      | zero => simp; omega
      | succ m =>
          have h := ih m
          simp only [List.getElem?_cons_succ]
          simp
          omega

mutual
/-- `validation.js` `jsonValidate` for the shapes the source builds: reject a
type mismatch (with a Content-Type hint when the whole body is absent),
reject an empty string, validate array elements cycling the template
(`expected[i % expected.length]`), and for objects reject missing required
keys, then unexpected keys, then recurse into every expected key.  Success
returns the original value. -/
def jsonValidate (actual : Option Json) (expected : Shape) (path : Option String) :
    Except VErr (Option Json) :=
  if shapeType expected != jsonType actual then
    match path, actual with
    | none, none => .error .contentType
    | _, _ => .error (.typeMismatch path expected)
  else
    match expected, actual with
    | .jstr _, some (.str s) =>
        if s.length = 0 then .error (.cannotBeEmpty path) else .ok actual
    | .jarr tmpl, some (.arr elems) =>
        match validateElems tmpl elems path 0 with
        | .error e => .error e
        | .ok _ => .ok actual
    | .jobj fields, some (.obj kvs) =>
        let actualKeys := kvs.map (fun p => p.1)
        let expectedKeys := fields.map (fun p => p.1)
        let missingKeys :=
          minus (expectedKeys.filter (fun k => !isOptionalKey fields k)) actualKeys
        if missingKeys.length > 0 then .error (.missingFields path missingKeys)
        else
          let unexpectedKeys := minus actualKeys expectedKeys
          if unexpectedKeys.length > 0 then .error (.unexpectedFields path unexpectedKeys)
          else
            match validateFields fields kvs path with
            | .error e => .error e
            | .ok _ => .ok actual
    | _, _ => .ok actual
termination_by (sizeOf expected, 1, 0)

/-- The element loop of the array case: element `i` is checked against
`expected[i % expected.length]` under path `join(path, i)`.  (For an empty
template JavaScript reads `expected[NaN]`, which is `undefined` and
type-checks exactly like the `null` default used here.) -/
def validateElems (tmpl : List Shape) (elems : List Json) (path : Option String)
    (i : Nat) : Except VErr Unit :=
  match elems with
  | [] => .ok ()
  | x :: rest =>
      match jsonValidate (some x) (tmpl.getD (i % tmpl.length) Shape.jnull)
          (some (joinPath path (toString i))) with
      | .error e => .error e
      | .ok _ => validateElems tmpl rest path (i + 1)
termination_by (1 + sizeOf tmpl, 0, elems.length)
decreasing_by
  · apply Prod.Lex.left
    simp only [List.getD, List.get?_eq_getElem?]
    exact sizeOf_getD_lt tmpl (i % tmpl.length)
  · apply Prod.Lex.right
    apply Prod.Lex.right
    simp

/-- The field loop of the object case, over the expected keys in order. -/
def validateFields (fields : List (String × SField)) (kvs : List (String × Json))
    (path : Option String) : Except VErr Unit :=
  match fields with
  | [] => .ok ()
  | (k, f) :: rest =>
      match validateField (lookupJs kvs k) f (some (joinPath path k)) with
      | .error e => .error e
      | .ok _ => validateFields rest kvs path
termination_by (1 + sizeOf fields, 0, 0)

/-- One field: the `Optional` unwrap at the head of `jsonValidate` (skip when
the actual value is `undefined`, `null` or the empty string), then the plain
check. -/
def validateField (actual : Option Json) (f : SField) (path : Option String) :
    Except VErr (Option Json) :=
  match f with
  | .opt s => if isSkippable actual then .ok actual else jsonValidate actual s path
  | .req s => jsonValidate actual s path
termination_by (sizeOf f, 1, 0)
end

/-- `crypto.js` `ivSize`: nonce length in bytes. -/
def ivSize : Nat := 16

/-- `crypto.js` `tagSize`: authentication-tag length in bytes. -/
def tagSize : Nat := 16

/-- The standard base64 alphabet, as `Buffer`'s `'base64'` encoding uses. -/
def base64Alphabet : List Char :=
  "ABCDEFGHIJKLMNOPQRSTUVWXYZabcdefghijklmnopqrstuvwxyz0123456789+/".toList

/-- The alphabet character of a sextet (always below 64 at call sites). -/
def b64Char (n : Nat) : Char := base64Alphabet.getD n '='

/-- The sextet of an alphabet character, `none` for a character outside the
alphabet. -/
def b64Index (c : Char) : Option Nat := base64Alphabet.findIdx? (fun d => d == c)

/-- Base64 encoding of a byte list, three bytes to four characters with `=`
padding. -/
def b64EncodeChunks : List Nat → List Char
  | [] => []
  | [b1] => [b64Char (b1 / 4), b64Char (b1 % 4 * 16), '=', '=']
  | [b1, b2] => [b64Char (b1 / 4), b64Char (b1 % 4 * 16 + b2 / 16), b64Char (b2 % 16 * 4), '=']
  | b1 :: b2 :: b3 :: rest =>
      b64Char (b1 / 4) :: b64Char (b1 % 4 * 16 + b2 / 16) ::
        b64Char (b2 % 16 * 4 + b3 / 64) :: b64Char (b3 % 64) :: b64EncodeChunks rest

/-- `buffer.toString('base64')`. -/
def b64Encode (bs : List Nat) : String := String.mk (b64EncodeChunks bs)

/-- Base64 decoding, four characters to three bytes, handling the two `=`
padding forms on the final chunk. -/
def b64DecodeChunks : List Char → Option (List Nat)
  | [] => some []
  | c1 :: c2 :: c3 :: c4 :: rest => do
      let n1 ← b64Index c1
      let n2 ← b64Index c2
      if c3 = '=' then
        if c4 = '=' ∧ rest = [] then some [n1 * 4 + n2 / 16] else none
      else do
        let n3 ← b64Index c3
        if c4 = '=' then
          if rest = [] then some [n1 * 4 + n2 / 16, n2 % 16 * 16 + n3 / 4] else none
        else do
          let n4 ← b64Index c4
          let tailBytes ← b64DecodeChunks rest
          some ((n1 * 4 + n2 / 16) :: (n2 % 16 * 16 + n3 / 4) :: (n3 % 4 * 64 + n4) :: tailBytes)
  | _ => none

/-- `Buffer.from(token, 'base64')`. -/
def b64Decode (s : String) : Option (List Nat) := b64DecodeChunks s.toList

/-- The `aes-256-gcm` cipher of Node's `crypto` module under the fixed server
secret key, as `crypto.js` uses it: `enc iv m` is the ciphertext
(`cipher.update` plus `cipher.final`), `tag iv m` the authentication tag
(`cipher.getAuthTag()`) and `dec iv t c` the verified decryption
(`decipher.setAuthTag`, `decipher.update` plus `decipher.final`, `none` when
tag verification fails).  The cipher is an external collaborator; its AEAD
contract enters the round-trip theorem as hypotheses. -/
structure GCM where
  enc : List Nat → List Nat → List Nat
  tag : List Nat → List Nat → List Nat
  dec : List Nat → List Nat → List Nat → Option (List Nat)

/-- `crypto.js` `encrypt`: serialize the content (`JSON.stringify`, a
parameter), encrypt it under a fresh 16-byte `iv`
(`crypto.randomBytes(ivSize)`, supplied by the caller), check the tag size
and base64-encode `iv || authTag || ciphertext`.  `none` is the internal
`Unexpected tag size` error. -/
def encrypt {α : Type} (g : GCM) (stringify : α → List Nat) (iv : List Nat)
    (content : α) : Option String :=
  let str := stringify content
  let encd := g.enc iv str
  let tg := g.tag iv str
  if tg.length != tagSize then none
  else some (b64Encode (iv ++ tg ++ encd))

/-- The distinct structural failure causes inside `crypto.js` `decrypt`,
before its `catch` collapses them. -/
inductive DecCause where
  | badBase64
  | badLength
  | badTag
  | badJson
  deriving Repr, DecidableEq

/-- The body of `crypto.js` `decrypt` with its failure causes still
distinguished: base64-decode, slice `iv = [0, 16)`, `tag = [16, 32)`, check
both lengths, decrypt-and-verify the rest, and parse the plaintext
(`JSON.parse`, the parameter `parse`). -/
def decryptCore {α : Type} (g : GCM) (parse : List Nat → Option α) (token : String) :
    Except DecCause α :=
  match b64Decode token with
  | none => .error .badBase64
  | some buffer =>
      let iv := buffer.take ivSize
      let tag := (buffer.drop ivSize).take tagSize
      if iv.length != ivSize || tag.length != tagSize then .error .badLength
      else
        match g.dec iv tag (buffer.drop (ivSize + tagSize)) with
        | none => .error .badTag
        | some str =>
            match parse str with
            | none => .error .badJson
            | some content => .ok content

/-- The one `ClientError` the `catch` of `decrypt` throws; no `status` is
given, so the `ClientError` default of 400 applies. -/
def invalidAuthErr : ClientErr :=
  { code := "invalid-auth", message := "Invalid authentication" }

/-- `crypto.js` `decrypt`: the `try`/`catch` that collapses every structural
failure of `decryptCore` to the single `invalid-auth` client error. -/
def decrypt {α : Type} (g : GCM) (parse : List Nat → Option α) (token : String) :
    Except ClientErr α :=
  match decryptCore g parse token with
  | .ok v => .ok v
  | .error _ => .error invalidAuthErr

/-- A trivial cipher satisfying the AEAD contract, used to exercise the
sealing pipeline on concrete inputs. -/
def idGCM : GCM where
  enc := fun _ m => m
  tag := fun _ _ => List.replicate tagSize 0
  dec := fun _ t c => if t = List.replicate tagSize 0 then some c else none

/-- The body shape `POST /lists` validates: `{ name: 'Groceries' }`. -/
def listsShape : Shape := .jobj [("name", .req (.jstr "Groceries"))]

/-- The store state the list routes touch: the `todo.lists` rows (id and
inserted body), the `todo.permissions` rows, and the auto-increment counter
whose current value the next insert returns as its insert id. -/
structure Db where
  lists : List (Nat × Option Json)
  perms : List PermRow
  nextListId : Nat

/-- The `POST /lists` route body of `server.js`: the caller was authenticated
with `require = false`, so `userId` may be `none`; validate the body against
`{name}`, `INSERT INTO todo.lists SET ?` (the insert id becomes `listId`),
then `INSERT INTO todo.permissions(userId, listId, role) VALUES (?, ?,
'owner')`; the route answers 201 with the list id. -/
def postLists (db : Db) (userId : Option Nat) (body : Option Json) :
    Except VErr (Db × Nat) :=
  match jsonValidate body listsShape none with
  | .error e => .error e
  | .ok _ =>
      let listId := db.nextListId
      .ok ({ lists := db.lists ++ [(listId, body)],
             perms := db.perms ++ [{ userId := userId, listId := listId, role := .owner }],
             nextListId := listId + 1 }, listId)

/-!
Theorems.  Each claim of the specification gets one theorem below, stated
over the definitions above; helper lemmas shared between them come first.
-/

/-- `hasRole`, written with `indexOf` over the role list, agrees with the
rank order read(0) < write(1) < owner(2). -/
theorem hasRole_iff (role required : Role) :
    hasRole role required = true ↔ roleRank required ≤ roleRank role := by
  cases role <;> cases required <;> decide

/-- The SQL `IF` filter of the permission query says exactly: the row's
`userId` equals the identity (both `NULL` or both the same user) and the
row's `listId` equals the list. -/
theorem permMatches_iff (row : PermRow) (u : Option Nat) (l : Nat) :
    permMatches row u l = true ↔ row.userId = u ∧ row.listId = l := by
  cases u <;> simp [permMatches]

/-- Membership in the permission query's result rows. -/
theorem mem_permQuery {perms : List PermRow} {u : Option Nat} {l : Nat} {row : PermRow} :
    row ∈ permQuery perms u l ↔ row ∈ perms ∧ permMatches row u l = true := by
  unfold permQuery
  exact List.mem_filter

/-- C1: a permission check succeeds exactly when the row looked up for the
identity (anonymous rows only for a null identity, the identity's own rows
only otherwise) exists and its role's rank under read(0) < write(1) <
owner(2) is at least the required role's rank; any failure is the
`insufficient-perms` client error with status 401.  In particular read
fails a write-required check, write passes a read-required check, and when
no row matches the check fails. -/
theorem checkPermissions_spec (perms : List PermRow) (userId : Option Nat)
    (listId : Nat) (required : Role)
    (huniq : ∀ r1 ∈ perms, ∀ r2 ∈ perms,
        r1.userId = r2.userId → r1.listId = r2.listId → r1 = r2) :
    (checkPermissions perms userId listId required = .ok () ↔
      ∃ row ∈ perms, permMatches row userId listId = true ∧
        roleRank required ≤ roleRank row.role)
    ∧ (∀ e, checkPermissions perms userId listId required = .error e → e = insufficientPerms)
    ∧ insufficientPerms = { status := 401, code := "insufficient-perms",
                            message := "Insufficient permissions" }
    ∧ hasRole Role.read Role.write = false
    ∧ hasRole Role.write Role.read = true
    ∧ ((∀ row ∈ perms, permMatches row userId listId = false) →
        checkPermissions perms userId listId required = .error insufficientPerms) := by
  refine ⟨⟨?_, ?_⟩, ?_, rfl, by decide, by decide, ?_⟩
  · intro hok
    unfold checkPermissions at hok
    cases hq : permQuery perms userId listId with
    | nil => rw [hq] at hok; simp at hok
    | cons row rest =>
        rw [hq] at hok
        by_cases hr : hasRole row.role required = true
        · have hrow : row ∈ permQuery perms userId listId := by
            rw [hq]; exact List.mem_cons_self _ _
          have hm := mem_permQuery.mp hrow
          exact ⟨row, hm.1, hm.2, (hasRole_iff _ _).mp hr⟩
        · simp [hr] at hok
  · rintro ⟨row, hmem, hmatch, hrank⟩
    have hrowq : row ∈ permQuery perms userId listId :=
      mem_permQuery.mpr ⟨hmem, hmatch⟩
    unfold checkPermissions
    cases hq : permQuery perms userId listId with
    | nil => rw [hq] at hrowq; cases hrowq
    | cons row0 rest =>
        have hrow0q : row0 ∈ permQuery perms userId listId := by
          rw [hq]; exact List.mem_cons_self _ _
        have hm0 := mem_permQuery.mp hrow0q
        have h1 := (permMatches_iff _ _ _).mp hmatch
        have h2 := (permMatches_iff _ _ _).mp hm0.2
        have heq : row0 = row :=
          huniq row0 hm0.1 row hmem
            (by rw [h1.1, h2.1]) (by rw [h1.2, h2.2])
        rw [heq]
        simp [(hasRole_iff _ _).mpr hrank]
  · intro e he
    unfold checkPermissions at he
    cases hq : permQuery perms userId listId with
    | nil => rw [hq] at he; simp at he; exact he.symm
    | cons row rest =>
        rw [hq] at he
        by_cases hr : hasRole row.role required = true
        · simp [hr] at he
        · simp [hr] at he; exact he.symm
  · intro hnone
    unfold checkPermissions
    have : permQuery perms userId listId = [] := by
      unfold permQuery
      exact List.filter_eq_nil_iff.mpr (fun row hr => by simp [hnone row hr])
    rw [this]

/-- Witness for C1 at a concrete store: user 3 holds `write` on list 1, and
the read-required check passes. -/
theorem checkPermissions_spec_witness :
    ∃ row ∈ [PermRow.mk (some 3) 1 Role.write], permMatches row (some 3) 1 = true ∧
      roleRank Role.read ≤ roleRank row.role :=
  ((checkPermissions_spec [PermRow.mk (some 3) 1 Role.write] (some 3) 1 Role.read
      (by decide)).1).mp (by rfl)

/-- The strict-integer test, characterized: a match is an optional sign
followed by one or more digits or by the literal `Infinity`. -/
theorem strictIntMatch_iff (cs : List Char) :
    strictIntMatch cs = true ↔
      ∃ sign body, (sign = [] ∨ sign = ['+'] ∨ sign = ['-']) ∧
        cs = sign ++ body ∧
        ((body ≠ [] ∧ body.all isDig = true) ∨ body = "Infinity".toList) := by
  cases cs with
  | nil =>
      constructor
      · intro h; simp [strictIntMatch] at h
      · rintro ⟨sign, body, hs, hcs, hb⟩
        have h0 := List.append_eq_nil.mp hcs.symm
        rcases hb with ⟨hne, _⟩ | hinf
        · exact absurd h0.2 hne
        · rw [h0.2] at hinf; simp at hinf
  | cons c rest =>
      by_cases hsign : c = '-' ∨ c = '+'
      · have hmatch : strictIntMatch (c :: rest) =
            ((!rest.isEmpty && rest.all isDig) || rest == "Infinity".toList) := by
          unfold strictIntMatch
          rcases hsign with h | h <;> subst h <;> simp
        rw [hmatch]
        constructor
        · intro h
          rcases Bool.or_eq_true_iff.mp h with h' | h'
          · refine ⟨[c], rest, by rcases hsign with h | h <;> subst h <;> simp, rfl, ?_⟩
            left
            rcases Bool.and_eq_true_iff.mp h' with ⟨h1, h2⟩
            exact ⟨by simpa using h1, h2⟩
          · exact ⟨[c], rest, by rcases hsign with h | h <;> subst h <;> simp, rfl,
              Or.inr (by simpa using h')⟩
        · rintro ⟨sign, body, hs, hcs, hb⟩
          rcases hs with h | h | h <;> subst h
          · -- empty sign: the body starts with the sign character
            simp at hcs
            subst hcs
            rcases hb with ⟨_, hdig⟩ | hinf
            · have : isDig c = true := by
                have := List.all_eq_true.mp hdig c (List.mem_cons_self _ _)
                exact this
              rcases hsign with h | h <;> subst h <;> simp [isDig] at this
            · rcases hsign with h | h <;> subst h <;> simp at hinf
          · -- sign '+': c = '+'
            simp at hcs
            rcases hcs with ⟨hc, hrest⟩
            subst hrest
            rcases hb with ⟨hne, hdig⟩ | hinf
            · exact Bool.or_eq_true_iff.mpr (Or.inl (Bool.and_eq_true_iff.mpr
                ⟨by simpa using hne, hdig⟩))
            · exact Bool.or_eq_true_iff.mpr (Or.inr (by simpa using hinf))
          · -- sign '-': c = '-'
            simp at hcs
            rcases hcs with ⟨hc, hrest⟩
            subst hrest
            rcases hb with ⟨hne, hdig⟩ | hinf
            · exact Bool.or_eq_true_iff.mpr (Or.inl (Bool.and_eq_true_iff.mpr
                ⟨by simpa using hne, hdig⟩))
            · exact Bool.or_eq_true_iff.mpr (Or.inr (by simpa using hinf))
      · push_neg at hsign
        have hmatch : strictIntMatch (c :: rest) =
            ((!(c :: rest).isEmpty && (c :: rest).all isDig) ||
              (c :: rest) == "Infinity".toList) := by
          unfold strictIntMatch
          have h1 : (c == '-' || c == '+') = false := by
            simp [hsign.1, hsign.2]
          simp [h1]
        rw [hmatch]
        constructor
        · intro h
          rcases Bool.or_eq_true_iff.mp h with h' | h'
          · refine ⟨[], c :: rest, Or.inl rfl, rfl, Or.inl ⟨by simp, ?_⟩⟩
            exact (Bool.and_eq_true_iff.mp h').2
          · exact ⟨[], c :: rest, Or.inl rfl, rfl, Or.inr (by simpa using h')⟩
        · rintro ⟨sign, body, hs, hcs, hb⟩
          have hsign' : sign = [] := by
            rcases hs with h | h | h <;> subst h
            · rfl
            · simp at hcs; exact absurd hcs.1 hsign.2
            · simp at hcs; exact absurd hcs.1 hsign.1
          subst hsign'
          simp at hcs
          subst hcs
          rcases hb with ⟨hne, hdig⟩ | hinf
          · exact Bool.or_eq_true_iff.mpr (Or.inl (Bool.and_eq_true_iff.mpr
              ⟨by simp, hdig⟩))
          · exact Bool.or_eq_true_iff.mpr (Or.inr (by simpa using hinf))

/-- C9: the strict integer parser yields a number exactly for an optional
sign followed by one or more digits or by the literal `Infinity`; every
other string is NaN, which the route handlers turn into the
`invalid-route-param` client error. -/
theorem parseIntStrict_spec (x : String) :
    ((parseIntStrict x).isSome = true ↔
      ∃ sign body, (sign = [] ∨ sign = ['+'] ∨ sign = ['-']) ∧
        x.toList = sign ++ body ∧
        ((body ≠ [] ∧ body.all isDig = true) ∨ body = "Infinity".toList))
    ∧ invalidRouteParamErr.status = 400
    ∧ (parseIntStrict x = none ↔ parseRouteParam x = .error invalidRouteParamErr) := by
  refine ⟨?_, rfl, ?_⟩
  · rw [← strictIntMatch_iff]
    unfold parseIntStrict
    by_cases h : strictIntMatch x.toList = true <;> simp [h]
  · unfold parseRouteParam
    cases h : parseIntStrict x with
    | none => simp
    | some v => simp

/-- Alphabet lookup inverts alphabet indexing on the sextet range. -/
theorem b64Index_b64Char : ∀ n < 64, b64Index (b64Char n) = some n := by decide

/-- No sextet encodes to the padding character. -/
theorem b64Char_ne_pad : ∀ n < 64, b64Char n ≠ '=' := by decide

/-- Decoding inverts encoding chunk by chunk, for byte lists. -/
theorem b64DecodeChunks_enc (bs : List Nat) (h : ∀ b ∈ bs, b < 256) :
    b64DecodeChunks (b64EncodeChunks bs) = some bs := by
  induction bs using b64EncodeChunks.induct with
  | case1 => rfl
  | case2 b1 =>
      have hb1 : b1 < 256 := h b1 (by simp)
      rw [b64EncodeChunks]
      rw [b64DecodeChunks]
      rw [b64Index_b64Char (b1 / 4) (by omega), b64Index_b64Char (b1 % 4 * 16) (by omega)]
      simp
      omega
  | case3 b1 b2 =>
      have hb1 : b1 < 256 := h b1 (by simp)
      have hb2 : b2 < 256 := h b2 (by simp)
      rw [b64EncodeChunks]
      rw [b64DecodeChunks]
      rw [b64Index_b64Char (b1 / 4) (by omega),
        b64Index_b64Char (b1 % 4 * 16 + b2 / 16) (by omega)]
      simp [b64Char_ne_pad (b2 % 16 * 4) (by omega)]
      rw [b64Index_b64Char (b2 % 16 * 4) (by omega)]
      simp
      constructor <;> omega
  | case4 b1 b2 b3 rest ih =>
      have hb1 : b1 < 256 := h b1 (by simp)
      have hb2 : b2 < 256 := h b2 (by simp)
      have hb3 : b3 < 256 := h b3 (by simp)
      have hrest : ∀ b ∈ rest, b < 256 := fun b hb => h b (by simp [hb])
      rw [b64EncodeChunks]
      rw [b64DecodeChunks]
      rw [b64Index_b64Char (b1 / 4) (by omega),
        b64Index_b64Char (b1 % 4 * 16 + b2 / 16) (by omega)]
      simp only [Option.bind_eq_bind, Option.some_bind]
      rw [if_neg (b64Char_ne_pad (b2 % 16 * 4 + b3 / 64) (by omega))]
      rw [b64Index_b64Char (b2 % 16 * 4 + b3 / 64) (by omega)]
      simp only [Option.bind_eq_bind, Option.some_bind]
      rw [if_neg (b64Char_ne_pad (b3 % 64) (by omega))]
      rw [b64Index_b64Char (b3 % 64) (by omega)]
      simp only [Option.bind_eq_bind, Option.some_bind]
      rw [ih hrest]
      simp only [Option.bind_eq_bind, Option.some_bind, Option.some.injEq, List.cons.injEq]
      exact ⟨by omega, by omega, by omega, trivial⟩

/-- Base64 decoding inverts base64 encoding on byte lists. -/
theorem b64Decode_b64Encode (bs : List Nat) (h : ∀ b ∈ bs, b < 256) :
    b64Decode (b64Encode bs) = some bs :=
  b64DecodeChunks_enc bs h

/-- Every error `decrypt` returns is the one collapsed `invalid-auth`
client error. -/
theorem decrypt_error_eq {α : Type} (g : GCM) (parse : List Nat → Option α)
    (token : String) (e : ClientErr) (h : decrypt g parse token = .error e) :
    e = invalidAuthErr := by
  unfold decrypt at h
  cases hc : decryptCore g parse token with
  | ok v => rw [hc] at h; cases h
  | error c => rw [hc] at h; cases h; rfl

/-- C2: opening a sealed payload returns the payload.  `seal` base64-encodes
`nonce(16) || authTag(16) || ciphertext` and `open` splits at those fixed
offsets and decrypt-and-verifies; the external contracts enter as
hypotheses: the nonce is 16 bytes of the expected range, the AEAD cipher
produces a 16-byte tag over bytes and inverts itself under the same nonce,
tag and ciphertext, and the payload round-trips through JSON
serialization. -/
theorem seal_open_roundtrip {α : Type} (g : GCM) (stringify : α → List Nat)
    (parse : List Nat → Option α) (iv : List Nat) (p : α)
    (hiv : iv.length = ivSize)
    (htag : (g.tag iv (stringify p)).length = tagSize)
    (hbytes : ∀ b ∈ iv ++ g.tag iv (stringify p) ++ g.enc iv (stringify p), b < 256)
    (hdec : g.dec iv (g.tag iv (stringify p)) (g.enc iv (stringify p)) = some (stringify p))
    (hparse : parse (stringify p) = some p) :
    ∃ token, encrypt g stringify iv p = some token ∧ decrypt g parse token = .ok p := by
  refine ⟨b64Encode (iv ++ g.tag iv (stringify p) ++ g.enc iv (stringify p)), ?_, ?_⟩
  · unfold encrypt
    simp [htag]
  · have hassoc : iv ++ g.tag iv (stringify p) ++ g.enc iv (stringify p) =
        iv ++ (g.tag iv (stringify p) ++ g.enc iv (stringify p)) := by
      rw [List.append_assoc]
    have h1 : (iv ++ g.tag iv (stringify p) ++ g.enc iv (stringify p)).take ivSize = iv := by
      rw [hassoc]; exact List.take_left' hiv
    have hd : (iv ++ g.tag iv (stringify p) ++ g.enc iv (stringify p)).drop ivSize =
        g.tag iv (stringify p) ++ g.enc iv (stringify p) := by
      rw [hassoc]; exact List.drop_left' hiv
    have h2 : ((iv ++ g.tag iv (stringify p) ++ g.enc iv (stringify p)).drop ivSize).take tagSize
        = g.tag iv (stringify p) := by
      rw [hd]; exact List.take_left' htag
    have h3 : (iv ++ g.tag iv (stringify p) ++ g.enc iv (stringify p)).drop (ivSize + tagSize)
        = g.enc iv (stringify p) := by
      have : (iv ++ g.tag iv (stringify p)).length = ivSize + tagSize := by
        rw [List.length_append, hiv, htag]
      exact List.drop_left' this
    unfold decrypt decryptCore
    rw [b64Decode_b64Encode _ hbytes]
    simp only [h1, h2, h3, hiv, htag, hdec, hparse]
    simp

/-- Witness for C2: the pipeline round-trips a concrete two-byte payload
under a concrete contract-satisfying cipher and the identity
serialization. -/
theorem seal_open_roundtrip_witness :
    ∃ token, encrypt idGCM (fun p => p) (List.replicate 16 0) [104, 105] = some token ∧
      decrypt idGCM some token = .ok [104, 105] :=
  seal_open_roundtrip idGCM (fun p => p) some (List.replicate 16 0) [104, 105]
    (by decide) (by decide) (by decide) (by decide) (by decide)

/-- C6: every structural failure inside `decrypt` — base64 decode failure,
wrong length, tag mismatch, malformed JSON — produces the single
`invalid-auth` / `Invalid authentication` client error, and a successful
`decrypt` reveals nothing about failure causes; callers cannot distinguish
the root cause. -/
theorem decrypt_collapses_failures {α : Type} (g : GCM) (parse : List Nat → Option α)
    (token : String) :
    (∀ cause, decryptCore g parse token = .error cause →
        decrypt g parse token = .error invalidAuthErr)
    ∧ invalidAuthErr.code = "invalid-auth"
    ∧ invalidAuthErr.message = "Invalid authentication"
    ∧ (∀ e, decrypt g parse token = .error e → e = invalidAuthErr) := by
  refine ⟨?_, rfl, rfl, fun e h => decrypt_error_eq g parse token e h⟩
  intro cause hc
  unfold decrypt
  rw [hc]

/-- Every error `authenticate` returns is one of its four 401 errors or an
error its token opener returned. -/
theorem authenticate_error_mem (users : List UserRow) (sessions : List SessionRow)
    (now : Int) (hp : String → List Nat → List Nat) (b64 : String → String)
    (tokenOpen : String → Except ClientErr Nat) (header : Option String)
    (require : Require) (e : ClientErr)
    (h : authenticate users sessions now hp b64 tokenOpen header require = .error e) :
    e = missingUserErr ∨ e = invalidPasswordErr ∨ e = expiredSessionErr ∨
      e = authRequiredErr ∨ ∃ t, tokenOpen t = .error e := by
  cases header with
  | none =>
      simp only [authenticate] at h
      split at h
      · cases h; exact Or.inr (Or.inr (Or.inr (Or.inl rfl)))
      · cases h
  | some auth =>
      simp only [authenticate] at h
      split at h
      · -- Basic branch taken: the user lookup, then the hash comparison
        split at h
        · cases h; exact Or.inl rfl
        · split at h
          · cases h; exact Or.inr (Or.inl rfl)
          · cases h
      · split at h
        · -- Bearer branch taken: the token opener, then the session lookup
          split at h
          · rename_i e' ht
            cases h; exact Or.inr (Or.inr (Or.inr (Or.inr ⟨_, ht⟩)))
          · split at h
            · cases h; exact Or.inr (Or.inr (Or.inl rfl))
            · cases h
        · split at h
          · cases h; exact Or.inr (Or.inr (Or.inr (Or.inl rfl)))
          · cases h

/-- C3 (amended): the authentication failures raised by `authenticate`
itself — missing user, invalid password, expired session, missing required
credentials — are client errors with status 401; a token-decryption failure
is surfaced as the `invalid-auth` client error, whose status is the
`ClientError` default 400, not 401. -/
theorem authenticate_failure_statuses (users : List UserRow) (sessions : List SessionRow)
    (now : Int) (hp : String → List Nat → List Nat) (b64 : String → String)
    (g : GCM) (parse : List Nat → Option Nat) (header : Option String)
    (require : Require) :
    (∀ e, authenticate users sessions now hp b64 (decrypt g parse) header require = .error e →
        e.status = 401 ∨ e = invalidAuthErr)
    ∧ invalidAuthErr.status = 400
    ∧ missingUserErr.status = 401 ∧ invalidPasswordErr.status = 401
    ∧ expiredSessionErr.status = 401 ∧ authRequiredErr.status = 401 := by
  refine ⟨?_, rfl, rfl, rfl, rfl, rfl⟩
  intro e h
  rcases authenticate_error_mem users sessions now hp b64 (decrypt g parse)
      header require e h with h1 | h1 | h1 | h1 | ⟨t, ht⟩
  · subst h1; exact Or.inl rfl
  · subst h1; exact Or.inl rfl
  · subst h1; exact Or.inl rfl
  · subst h1; exact Or.inl rfl
  · exact Or.inr (decrypt_error_eq g parse t e ht)

/-- Witness for C3's amended statement: a concrete expired-session failure
has status 401. -/
theorem authenticate_failure_statuses_witness :
    expiredSessionErr.status = 401 ∧ invalidAuthErr.status = 400 :=
  ⟨(authenticate_failure_statuses [] [] 0 (fun _ _ => []) (fun s => s) idGCM
      (fun bs => bs.head?) none Require.required).2.2.2.2.1,
   (authenticate_failure_statuses [] [] 0 (fun _ _ => []) (fun s => s) idGCM
      (fun bs => bs.head?) none Require.required).2.1⟩

/-- Counterexample for C3 as stated: a malformed bearer token is a
token-decryption failure, and the client error it surfaces carries status
400, not 401. -/
theorem authenticate_status_counterexample :
    authenticate [] [] 0 (fun _ _ => []) (fun s => s)
        (decrypt idGCM (fun bs => bs.head?)) (some "Bearer *") Require.required
      = .error invalidAuthErr ∧
    invalidAuthErr.status ≠ 401 :=
  ⟨rfl, by decide⟩

/-- The session lookup `WHERE id = ? AND expirationDate >= NOW()`,
characterized under primary-key uniqueness of session ids. -/
theorem find?_session_iff (sessions : List SessionRow) (now : Int) (sid : Nat)
    (huniq : ∀ s1 ∈ sessions, ∀ s2 ∈ sessions, s1.id = s2.id → s1 = s2)
    (s : SessionRow) :
    sessions.find? (fun s' => s'.id == sid && decide (now ≤ s'.expirationDate)) = some s ↔
      s ∈ sessions ∧ s.id = sid ∧ now ≤ s.expirationDate := by
  constructor
  · intro h
    have hmem := List.mem_of_find?_eq_some h
    have hpred := List.find?_some h
    simp at hpred
    exact ⟨hmem, hpred.1, hpred.2⟩
  · rintro ⟨hmem, hid, hexp⟩
    cases hf : sessions.find? (fun s' => s'.id == sid && decide (now ≤ s'.expirationDate)) with
    | none =>
        have := List.find?_eq_none.mp hf s hmem
        simp [hid, hexp] at this
    | some s' =>
        have hmem' := List.mem_of_find?_eq_some hf
        have hpred' := List.find?_some hf
        simp at hpred'
        have : s' = s := huniq s' hmem' s hmem (by rw [hpred'.1, hid])
        rw [this]

/-- C4 (amended): a session is invalid exactly when now > expirationDate.
For a bearer request whose token opens to session id `sid`, authentication
succeeds exactly on a stored session whose id matches and whose expiration
has not yet passed (`expirationDate >= NOW()`, so the session is still
accepted at the instant now = expirationDate); otherwise — whether the
session is absent or present-but-expired, indistinguishably — it fails with
`expired-session`. -/
theorem bearer_session_validity (users : List UserRow) (sessions : List SessionRow)
    (now : Int) (hp : String → List Nat → List Nat) (b64 : String → String)
    (sid : Nat) (auth : String)
    (hnotbasic : jsStartsWith auth "Basic " = false)
    (hbearer : jsStartsWith auth "Bearer " = true)
    (huniq : ∀ s1 ∈ sessions, ∀ s2 ∈ sessions, s1.id = s2.id → s1 = s2) :
    (∀ r, authenticate users sessions now hp b64 (fun _ => .ok sid)
        (some auth) Require.required = .ok r ↔
      ∃ s ∈ sessions, s.id = sid ∧ now ≤ s.expirationDate ∧
        r = { type := "token", userId := some s.userId, sessionId := some sid })
    ∧ ((¬ ∃ s ∈ sessions, s.id = sid ∧ now ≤ s.expirationDate) →
        authenticate users sessions now hp b64 (fun _ => .ok sid)
          (some auth) Require.required = .error expiredSessionErr) := by
  have hred : authenticate users sessions now hp b64 (fun _ => .ok sid)
      (some auth) Require.required =
      match sessions.find? (fun s => s.id == sid && decide (now ≤ s.expirationDate)) with
      | none => .error expiredSessionErr
      | some s => .ok { type := "token", userId := some s.userId, sessionId := some sid } := by
    simp only [authenticate, hnotbasic, hbearer]
    rfl
  constructor
  · intro r
    rw [hred]
    cases hf : sessions.find? (fun s => s.id == sid && decide (now ≤ s.expirationDate)) with
    | none =>
        simp only []
        constructor
        · intro hr; cases hr
        · rintro ⟨s, hmem, hid, hexp, hr⟩
          have := (find?_session_iff sessions now sid huniq s).mpr ⟨hmem, hid, hexp⟩
          rw [hf] at this; cases this
    | some s =>
        have hs := (find?_session_iff sessions now sid huniq s).mp hf
        simp only []
        constructor
        · intro hr
          cases hr
          exact ⟨s, hs.1, hs.2.1, hs.2.2, rfl⟩
        · rintro ⟨s', hmem', hid', hexp', hr⟩
          have := (find?_session_iff sessions now sid huniq s').mpr ⟨hmem', hid', hexp'⟩
          rw [hf] at this
          cases this
          rw [hr]
  · intro hnone
    rw [hred]
    cases hf : sessions.find? (fun s => s.id == sid && decide (now ≤ s.expirationDate)) with
    | none => rfl
    | some s =>
        have hs := (find?_session_iff sessions now sid huniq s).mp hf
        exact absurd ⟨s, hs.1, hs.2.1, hs.2.2⟩ hnone

/-- Witness for C4's amended statement: a live session (`now <
expirationDate`) authenticates. -/
theorem bearer_session_validity_witness :
    authenticate [] [SessionRow.mk 1 7 9] 5 (fun _ _ => []) (fun s => s)
        (fun _ => .ok 1) (some "Bearer t") Require.required
      = .ok { type := "token", userId := some 7, sessionId := some 1 } :=
  ((bearer_session_validity [] [SessionRow.mk 1 7 9] 5 (fun _ _ => []) (fun s => s)
      1 "Bearer t" (by decide) (by decide) (by decide)).1
    { type := "token", userId := some 7, sessionId := some 1 }).mpr
    ⟨SessionRow.mk 1 7 9, by decide, rfl, by decide, rfl⟩

/-- Counterexample for C4 as stated: at the instant now = expirationDate the
code still accepts the session, where the claim requires an
`expired-session` failure identical to an absent session. -/
theorem session_boundary_counterexample :
    authenticate [] [SessionRow.mk 1 7 5] 5 (fun _ _ => []) (fun s => s)
        (fun _ => .ok 1) (some "Bearer t") Require.required
      = .ok { type := "token", userId := some 7, sessionId := some 1 } ∧
    authenticate [] [SessionRow.mk 1 7 5] 5 (fun _ _ => []) (fun s => s)
        (fun _ => .ok 1) (some "Bearer t") Require.required
      ≠ .error expiredSessionErr := by
  constructor
  · rfl
  · intro hcontra
    rw [show authenticate [] [SessionRow.mk 1 7 5] 5 (fun _ _ => []) (fun s => s)
        (fun _ => .ok 1) (some "Bearer t") Require.required
      = .ok { type := "token", userId := some 7, sessionId := some 1 } from rfl] at hcontra
    cases hcontra

/-- With distinct keys, the key lookup finds exactly the entry present. -/
theorem find?_key_eq_of_mem {β : Type} (l : List (String × β))
    (hnd : (l.map Prod.fst).Nodup) (k : String) (f : β) (hmem : (k, f) ∈ l) :
    l.find? (fun p => p.1 == k) = some (k, f) := by
  induction l with
  | nil => cases hmem
  | cons hd rest ih =>
      obtain ⟨k', f'⟩ := hd
      rw [List.map_cons] at hnd
      have hnd' := List.nodup_cons.mp hnd
      rcases List.mem_cons.mp hmem with heq | hmem'
      · cases heq
        exact List.find?_cons_of_pos _ (by simp)
      · by_cases hk : k' = k
        · subst hk
          exact absurd (List.mem_map.mpr ⟨(k', f), hmem', rfl⟩) hnd'.1
        · rw [List.find?_cons_of_neg _ (by simp [hk])]
          exact ih hnd'.2 hmem'

/-- A found key entry is present with the key it was looked up by. -/
theorem find?_key_mem {β : Type} {l : List (String × β)} {k : String} {p : String × β}
    (h : l.find? (fun q => q.1 == k) = some p) : p ∈ l ∧ p.1 = k := by
  refine ⟨List.mem_of_find?_eq_some h, ?_⟩
  have := List.find?_some h
  simpa using this

/-- The key lookup misses exactly the keys outside the object. -/
theorem find?_key_eq_none {β : Type} (l : List (String × β)) (k : String) :
    l.find? (fun p => p.1 == k) = none ↔ k ∉ l.map Prod.fst := by
  rw [List.find?_eq_none]
  constructor
  · intro h hk
    obtain ⟨p, hp, hpk⟩ := List.mem_map.mp hk
    exact absurd (by simp [hpk]) (h p hp)
  · intro h p hp
    simp only [beq_iff_eq]
    intro hpk
    exact h (List.mem_map.mpr ⟨p, hp, hpk⟩)

/-- `lookupJs` on an object with distinct keys returns the value stored. -/
theorem lookupJs_eq_of_mem (kvs : List (String × Json))
    (hnd : (kvs.map Prod.fst).Nodup) (k : String) (v : Json) (hmem : (k, v) ∈ kvs) :
    lookupJs kvs k = some v := by
  unfold lookupJs
  rw [find?_key_eq_of_mem kvs hnd k v hmem]
  rfl

/-- `lookupJs` is `undefined` exactly off the object's key set. -/
theorem lookupJs_eq_none (kvs : List (String × Json)) (k : String) :
    lookupJs kvs k = none ↔ k ∉ kvs.map Prod.fst := by
  unfold lookupJs
  cases hf : kvs.find? (fun p => p.1 == k) with
  | none => simpa using (find?_key_eq_none kvs k).mp hf
  | some p =>
      have hp := find?_key_mem hf
      constructor
      · intro h; simp at h
      · intro h
        exact absurd (List.mem_map.mpr ⟨p, hp.1, hp.2⟩) h

/-- A key of the shape is required exactly when its field is not wrapped in
`Optional` (with distinct field names). -/
theorem mem_requiredKeys_iff (fields : List (String × SField))
    (hnd : (fields.map Prod.fst).Nodup) (k : String) :
    k ∈ (fields.map Prod.fst).filter (fun k' => !isOptionalKey fields k') ↔
      ∃ s, (k, SField.req s) ∈ fields := by
  rw [List.mem_filter]
  constructor
  · rintro ⟨hkeys, hnotopt⟩
    obtain ⟨⟨k0, f0⟩, hmem0, hk0⟩ := List.mem_map.mp hkeys
    simp only at hk0
    subst hk0
    cases f0 with
    | req s => exact ⟨s, hmem0⟩
    | opt s =>
        exfalso
        have hfind := find?_key_eq_of_mem fields hnd k0 (SField.opt s) hmem0
        simp [isOptionalKey, hfind] at hnotopt
  · rintro ⟨s, hmem⟩
    refine ⟨List.mem_map.mpr ⟨(k, SField.req s), hmem, rfl⟩, ?_⟩
    have := find?_key_eq_of_mem fields hnd k (SField.req s) hmem
    simp [isOptionalKey, this]

/-- The field loop succeeds exactly when every expected field's value passes
its (possibly optional) check. -/
theorem validateFields_ok_iff (fields : List (String × SField))
    (kvs : List (String × Json)) (path : Option String) :
    validateFields fields kvs path = .ok () ↔
      ∀ kf ∈ fields,
        ∃ v, validateField (lookupJs kvs kf.1) kf.2 (some (joinPath path kf.1)) = .ok v := by
  induction fields with
  | nil => simp [validateFields]
  | cons kf rest ih =>
      obtain ⟨k, f⟩ := kf
      cases hv : validateField (lookupJs kvs k) f (some (joinPath path k)) with
      | error e =>
          simp only [validateFields, hv]
          constructor
          · intro h; cases h
          · intro h
            obtain ⟨v, hv2⟩ := h (k, f) (List.mem_cons_self _ _)
            rw [hv] at hv2
            cases hv2
      | ok v =>
          simp only [validateFields, hv]
          rw [ih]
          constructor
          · intro h kf' hmem
            rcases List.mem_cons.mp hmem with heq | hmem'
            · subst heq; exact ⟨v, hv⟩
            · exact h kf' hmem'
          · intro h kf' hmem
            exact h kf' (List.mem_cons_of_mem _ hmem)

/-- The element loop succeeds exactly when every element passes against its
cycled template slot. -/
theorem validateElems_ok_iff (tmpl : List Shape) (elems : List Json)
    (path : Option String) (i : Nat) :
    validateElems tmpl elems path i = .ok () ↔
      ∀ j, j < elems.length →
        ∃ v, jsonValidate (some (elems.getD j Json.null))
              (tmpl.getD ((i + j) % tmpl.length) Shape.jnull)
              (some (joinPath path (toString (i + j)))) = .ok v := by
  induction elems generalizing i with
  | nil => simp [validateElems]
  | cons x rest ih =>
      cases hv : jsonValidate (some x) (tmpl.getD (i % tmpl.length) Shape.jnull)
          (some (joinPath path (toString i))) with
      | error e =>
          simp only [validateElems, hv]
          constructor
          · intro h; cases h
          · intro h
            obtain ⟨v, hv2⟩ := h 0 (by simp)
            simp only [List.getD_cons_zero, Nat.add_zero] at hv2
            rw [hv] at hv2
            cases hv2
      | ok v =>
          simp only [validateElems, hv]
          rw [ih (i + 1)]
          constructor
          · intro h j hj
            cases j with
            | zero =>
                refine ⟨v, ?_⟩
                simpa using hv
            | succ j' =>
                obtain ⟨w, hw⟩ := h j' (by simpa using hj)
                refine ⟨w, ?_⟩
                have harith : i + 1 + j' = i + (j' + 1) := by omega
                rw [harith] at hw
                simpa using hw
          · intro h j hj
            obtain ⟨w, hw⟩ := h (j + 1) (by simpa using hj)
            refine ⟨w, ?_⟩
            have harith : i + (j + 1) = i + 1 + j := by omega
            rw [harith] at hw
            simpa using hw

/-- `minus` is empty exactly when the first list is contained in the
second. -/
theorem minus_eq_nil_iff (a b : List String) : minus a b = [] ↔ ∀ k ∈ a, k ∈ b := by
  unfold minus
  rw [List.filter_eq_nil_iff]
  simp

/-- Membership in `minus`. -/
theorem mem_minus (a b : List String) (k : String) : k ∈ minus a b ↔ k ∈ a ∧ k ∉ b := by
  unfold minus
  rw [List.mem_filter]
  simp

/-- `jsonValidate` on an object body against an object shape, reduced to the
missing-keys check, then the unexpected-keys check, then the field loop. -/
theorem jsonValidate_obj_eq (fields : List (String × SField)) (kvs : List (String × Json))
    (path : Option String) :
    jsonValidate (some (.obj kvs)) (.jobj fields) path =
      (if (minus ((fields.map (fun p => p.1)).filter (fun k => !isOptionalKey fields k))
            (kvs.map (fun p => p.1))).length > 0 then
        .error (.missingFields path
          (minus ((fields.map (fun p => p.1)).filter (fun k => !isOptionalKey fields k))
            (kvs.map (fun p => p.1))))
      else if (minus (kvs.map (fun p => p.1)) (fields.map (fun p => p.1))).length > 0 then
        .error (.unexpectedFields path
          (minus (kvs.map (fun p => p.1)) (fields.map (fun p => p.1))))
      else
        match validateFields fields kvs path with
        | .error e => .error e
        | .ok _ => .ok (some (.obj kvs))) := by
  simp only [jsonValidate]
  simp [shapeType, jsonType]

/-- `jsonValidate` on an array body against an array shape, reduced to the
element loop. -/
theorem jsonValidate_arr_eq (tmpl : List Shape) (elems : List Json) (path : Option String) :
    jsonValidate (some (.arr elems)) (.jarr tmpl) path =
      match validateElems tmpl elems path 0 with
      | .error e => .error e
      | .ok _ => .ok (some (.arr elems)) := by
  simp only [jsonValidate]
  simp [shapeType, jsonType]

/-- C5: object-shape validation accepts a body exactly when every required
(non-`Optional`) key is present, no key outside the shape's key set is
present, and every expected field's value passes its check (an optional
field may be absent, `null` or the empty string; a present value must
recursively validate, which enforces its JSON type); acceptance returns the
original value unmodified; a missing required key rejects listing exactly
the missing keys; an unexpected key rejects listing exactly the unexpected
keys; a wrong JSON type anywhere rejects; an empty string in a non-optional
string slot rejects. -/
theorem jsonValidate_object_spec (fields : List (String × SField))
    (kvs : List (String × Json)) (path : Option String)
    (hnd : (fields.map Prod.fst).Nodup) :
    ((∃ v, jsonValidate (some (.obj kvs)) (.jobj fields) path = .ok v) ↔
      (∀ k s, (k, SField.req s) ∈ fields → k ∈ kvs.map Prod.fst) ∧
      (∀ k, k ∈ kvs.map Prod.fst → k ∈ fields.map Prod.fst) ∧
      (∀ kf ∈ fields, ∃ v, validateField (lookupJs kvs kf.1) kf.2
          (some (joinPath path kf.1)) = .ok v))
    ∧ (∀ v, jsonValidate (some (.obj kvs)) (.jobj fields) path = .ok v →
        v = some (.obj kvs))
    ∧ (minus ((fields.map Prod.fst).filter (fun k => !isOptionalKey fields k))
          (kvs.map Prod.fst) ≠ [] →
        jsonValidate (some (.obj kvs)) (.jobj fields) path =
          .error (.missingFields path
            (minus ((fields.map Prod.fst).filter (fun k => !isOptionalKey fields k))
              (kvs.map Prod.fst))))
    ∧ (minus ((fields.map Prod.fst).filter (fun k => !isOptionalKey fields k))
          (kvs.map Prod.fst) = [] →
        minus (kvs.map Prod.fst) (fields.map Prod.fst) ≠ [] →
        jsonValidate (some (.obj kvs)) (.jobj fields) path =
          .error (.unexpectedFields path
            (minus (kvs.map Prod.fst) (fields.map Prod.fst))))
    ∧ (∀ k ∈ minus ((fields.map Prod.fst).filter (fun k => !isOptionalKey fields k))
          (kvs.map Prod.fst), (∃ s, (k, SField.req s) ∈ fields) ∧ k ∉ kvs.map Prod.fst)
    ∧ (∀ k ∈ minus (kvs.map Prod.fst) (fields.map Prod.fst),
        k ∈ kvs.map Prod.fst ∧ k ∉ fields.map Prod.fst)
    ∧ (∀ (a : Option Json) (sh : Shape) (p : Option String),
        (shapeType sh != jsonType a) = true → ∀ v, jsonValidate a sh p ≠ .ok v)
    ∧ (∀ (ex : String) (p : Option String),
        jsonValidate (some (.str "")) (.jstr ex) p = .error (.cannotBeEmpty p)) := by
  have heq := jsonValidate_obj_eq fields kvs path
  have hA : minus ((fields.map Prod.fst).filter (fun k => !isOptionalKey fields k))
      (kvs.map Prod.fst) ≠ [] →
      jsonValidate (some (.obj kvs)) (.jobj fields) path =
        .error (.missingFields path
          (minus ((fields.map Prod.fst).filter (fun k => !isOptionalKey fields k))
            (kvs.map Prod.fst))) := by
    intro hne
    rw [heq, if_pos (List.length_pos.mpr hne)]
  have hB : minus ((fields.map Prod.fst).filter (fun k => !isOptionalKey fields k))
        (kvs.map Prod.fst) = [] →
      minus (kvs.map Prod.fst) (fields.map Prod.fst) ≠ [] →
      jsonValidate (some (.obj kvs)) (.jobj fields) path =
        .error (.unexpectedFields path
          (minus (kvs.map Prod.fst) (fields.map Prod.fst))) := by
    intro hm hu
    rw [heq, if_neg (by simp [hm]), if_pos (List.length_pos.mpr hu)]
  have hC : minus ((fields.map Prod.fst).filter (fun k => !isOptionalKey fields k))
        (kvs.map Prod.fst) = [] →
      minus (kvs.map Prod.fst) (fields.map Prod.fst) = [] →
      jsonValidate (some (.obj kvs)) (.jobj fields) path =
        (match validateFields fields kvs path with
         | .error e => .error e
         | .ok _ => .ok (some (.obj kvs))) := by
    intro hm hu
    rw [heq, if_neg (by simp [hm]), if_neg (by simp [hu])]
  refine ⟨?_, ?_, hA, hB, ?_, ?_, ?_, ?_⟩
  · constructor
    · rintro ⟨v, hok⟩
      by_cases hm : minus ((fields.map Prod.fst).filter (fun k => !isOptionalKey fields k))
          (kvs.map Prod.fst) = []
      · by_cases hu : minus (kvs.map Prod.fst) (fields.map Prod.fst) = []
        · rw [hC hm hu] at hok
          cases hvf : validateFields fields kvs path with
          | error e => rw [hvf] at hok; cases hok
          | ok u =>
              cases u
              refine ⟨?_, ?_, (validateFields_ok_iff fields kvs path).mp hvf⟩
              · intro k s hks
                have hk : k ∈ (fields.map Prod.fst).filter
                    (fun k' => !isOptionalKey fields k') :=
                  (mem_requiredKeys_iff fields hnd k).mpr ⟨s, hks⟩
                exact (minus_eq_nil_iff _ _).mp hm k hk
              · intro k hk
                exact (minus_eq_nil_iff _ _).mp hu k hk
        · rw [hB hm hu] at hok; cases hok
      · rw [hA hm] at hok; cases hok
    · rintro ⟨h1, h2, h3⟩
      have hm : minus ((fields.map Prod.fst).filter (fun k => !isOptionalKey fields k))
          (kvs.map Prod.fst) = [] := by
        refine (minus_eq_nil_iff _ _).mpr (fun k hk => ?_)
        obtain ⟨s, hks⟩ := (mem_requiredKeys_iff fields hnd k).mp hk
        exact h1 k s hks
      have hu : minus (kvs.map Prod.fst) (fields.map Prod.fst) = [] :=
        (minus_eq_nil_iff _ _).mpr h2
      have hvf : validateFields fields kvs path = .ok () :=
        (validateFields_ok_iff fields kvs path).mpr h3
      refine ⟨some (.obj kvs), ?_⟩
      rw [hC hm hu, hvf]
  · intro v hok
    by_cases hm : minus ((fields.map Prod.fst).filter (fun k => !isOptionalKey fields k))
        (kvs.map Prod.fst) = []
    · by_cases hu : minus (kvs.map Prod.fst) (fields.map Prod.fst) = []
      · rw [hC hm hu] at hok
        cases hvf : validateFields fields kvs path with
        | error e => rw [hvf] at hok; cases hok
        | ok u => rw [hvf] at hok; cases hok; rfl
      · rw [hB hm hu] at hok; cases hok
    · rw [hA hm] at hok; cases hok
  · intro k hk
    have h := (mem_minus _ _ _).mp hk
    exact ⟨(mem_requiredKeys_iff fields hnd k).mp h.1, h.2⟩
  · intro k hk
    exact (mem_minus _ _ _).mp hk
  · intro a sh p hne v hok
    rw [jsonValidate.eq_def] at hok
    rw [if_pos hne] at hok
    cases p <;> cases a <;> cases hok
  · intro ex p
    simp only [jsonValidate]
    simp [shapeType, jsonType]

/-- Witness for C5: a body missing its required `password` key is rejected
listing exactly that key. -/
theorem jsonValidate_object_spec_witness :
    jsonValidate (some (.obj [("username", .str "jd")]))
        (.jobj [("username", .req (.jstr "johndoe")), ("password", .req (.jstr "secret"))])
        none = .error (.missingFields none ["password"]) :=
  (jsonValidate_object_spec
      [("username", .req (.jstr "johndoe")), ("password", .req (.jstr "secret"))]
      [("username", .str "jd")] none (by decide)).2.2.1 (by decide)

/-- C7: array validation checks element `i` of the actual array against
template element `i mod (template length)`; in particular a one-element
template `[T]` checks every element of `[a, b, c]` against `T`, and a
two-element template `[T1, T2]` checks `a` against `T1`, `b` against `T2`
and `c` against `T1`. -/
theorem jsonValidate_array_cycles :
    (∀ (tmpl : List Shape) (elems : List Json) (path : Option String), tmpl ≠ [] →
      ((∃ v, jsonValidate (some (.arr elems)) (.jarr tmpl) path = .ok v) ↔
        ∀ i, i < elems.length →
          ∃ v, jsonValidate (some (elems.getD i Json.null))
                (tmpl.getD (i % tmpl.length) Shape.jnull)
                (some (joinPath path (toString i))) = .ok v))
    ∧ (∀ (a b c : Json) (T : Shape) (path : Option String),
        ((∃ v, jsonValidate (some (.arr [a, b, c])) (.jarr [T]) path = .ok v) ↔
          (∃ v, jsonValidate (some a) T (some (joinPath path "0")) = .ok v) ∧
          (∃ v, jsonValidate (some b) T (some (joinPath path "1")) = .ok v) ∧
          (∃ v, jsonValidate (some c) T (some (joinPath path "2")) = .ok v)))
    ∧ (∀ (a b c : Json) (T1 T2 : Shape) (path : Option String),
        ((∃ v, jsonValidate (some (.arr [a, b, c])) (.jarr [T1, T2]) path = .ok v) ↔
          (∃ v, jsonValidate (some a) T1 (some (joinPath path "0")) = .ok v) ∧
          (∃ v, jsonValidate (some b) T2 (some (joinPath path "1")) = .ok v) ∧
          (∃ v, jsonValidate (some c) T1 (some (joinPath path "2")) = .ok v))) := by
  have harr : ∀ (tmpl : List Shape) (elems : List Json) (path : Option String),
      (∃ v, jsonValidate (some (.arr elems)) (.jarr tmpl) path = .ok v) ↔
        validateElems tmpl elems path 0 = .ok () := by
    intro tmpl elems path
    rw [jsonValidate_arr_eq]
    cases hve : validateElems tmpl elems path 0 with
    | error e =>
        constructor
        · rintro ⟨v, hok⟩; cases hok
        · intro h; cases h
    | ok u =>
        cases u
        constructor
        · intro _; rfl
        · intro _; exact ⟨some (.arr elems), rfl⟩
  have hgen : ∀ (tmpl : List Shape) (elems : List Json) (path : Option String),
      (∃ v, jsonValidate (some (.arr elems)) (.jarr tmpl) path = .ok v) ↔
        ∀ i, i < elems.length →
          ∃ v, jsonValidate (some (elems.getD i Json.null))
                (tmpl.getD (i % tmpl.length) Shape.jnull)
                (some (joinPath path (toString i))) = .ok v := by
    intro tmpl elems path
    rw [harr, validateElems_ok_iff]
    constructor
    · intro h i hi
      have := h i hi
      simpa using this
    · intro h i hi
      have := h i hi
      simpa using this
  have hts0 : toString (0 : Nat) = "0" := rfl
  have hts1 : toString (1 : Nat) = "1" := rfl
  have hts2 : toString (2 : Nat) = "2" := rfl
  refine ⟨fun tmpl elems path _ => hgen tmpl elems path, ?_, ?_⟩
  · intro a b c T path
    rw [hgen [T] [a, b, c] path]
    constructor
    · intro h
      have h0 := h 0 (by norm_num)
      have h1 := h 1 (by norm_num)
      have h2 := h 2 (by norm_num)
      simp only [List.length_cons, List.length_nil, Nat.reduceMod, List.getD_cons_succ,
        List.getD_cons_zero, hts0, hts1, hts2] at h0 h1 h2
      exact ⟨h0, h1, h2⟩
    · rintro ⟨h0, h1, h2⟩ i hi
      have hi3 : i < 3 := by simpa using hi
      interval_cases i <;>
        simp only [List.length_cons, List.length_nil, Nat.reduceMod, List.getD_cons_succ,
          List.getD_cons_zero, hts0, hts1, hts2]
      · exact h0
      · exact h1
      · exact h2
  · intro a b c T1 T2 path
    rw [hgen [T1, T2] [a, b, c] path]
    constructor
    · intro h
      have h0 := h 0 (by norm_num)
      have h1 := h 1 (by norm_num)
      have h2 := h 2 (by norm_num)
      simp only [List.length_cons, List.length_nil, Nat.reduceMod, List.getD_cons_succ,
        List.getD_cons_zero, hts0, hts1, hts2] at h0 h1 h2
      exact ⟨h0, h1, h2⟩
    · rintro ⟨h0, h1, h2⟩ i hi
      have hi3 : i < 3 := by simpa using hi
      interval_cases i <;>
        simp only [List.length_cons, List.length_nil, Nat.reduceMod, List.getD_cons_succ,
          List.getD_cons_zero, hts0, hts1, hts2]
      · exact h0
      · exact h1
      · exact h2

/-- C8 (refuting constant time): under the byte-comparison cost model of
`Buffer.compare` — the `memcmp` loop returns at the first differing byte —
two 64-byte digest pairs, both unequal, cost 1 and 64 byte comparisons
respectively, so the hash comparison the Basic path performs with
`bufCompare` is not constant-time over the digest bytes. -/
theorem bufCompare_not_constant_time :
    (bufCompareRun (List.replicate 64 0) (1 :: List.replicate 63 0)).2 = 1 ∧
    (bufCompareRun (List.replicate 64 0) (List.replicate 63 0 ++ [1])).2 = 64 ∧
    bufCompare (List.replicate 64 0) (1 :: List.replicate 63 0) ≠ 0 ∧
    bufCompare (List.replicate 64 0) (List.replicate 63 0 ++ [1]) ≠ 0 ∧
    (1 :: List.replicate 63 0).length = (List.replicate 63 0 ++ [1]).length := by
  decide

/-- C10: an unauthenticated caller — no Authorization header under the
optional requirement yields the anonymous identity — may create a list via
`POST /lists`: the route inserts the list and then a permission row with
`userId` NULL and role `owner` for it, so afterwards every unauthenticated
permission check on the new list succeeds at every required role. -/
theorem anonymous_list_creation (db : Db) (body : Option Json)
    (hfresh : ∀ row ∈ db.perms, row.listId ≠ db.nextListId) :
    (∀ (users : List UserRow) (sessions : List SessionRow) (now : Int)
        (hp : String → List Nat → List Nat) (b64 : String → String)
        (tokenOpen : String → Except ClientErr Nat),
        authenticate users sessions now hp b64 tokenOpen none Require.optional
          = .ok { type := "none", userId := none })
    ∧ (∀ db' listId, postLists db none body = .ok (db', listId) →
        (⟨none, listId, Role.owner⟩ : PermRow) ∈ db'.perms ∧
        listId = db.nextListId ∧
        ∀ required : Role, checkPermissions db'.perms none listId required = .ok ())
    ∧ ((∃ v, jsonValidate body listsShape none = .ok v) →
        ∃ db' listId, postLists db none body = .ok (db', listId)) := by
  refine ⟨fun _ _ _ _ _ _ => rfl, ?_, ?_⟩
  · intro db' listId hok
    unfold postLists at hok
    cases hjv : jsonValidate body listsShape none with
    | error e => rw [hjv] at hok; cases hok
    | ok v =>
        rw [hjv] at hok
        cases hok
        refine ⟨by simp, rfl, ?_⟩
        intro required
        have hq : permQuery (db.perms ++ [⟨none, db.nextListId, Role.owner⟩])
            none db.nextListId = [⟨none, db.nextListId, Role.owner⟩] := by
          unfold permQuery
          rw [List.filter_append]
          have h1 : db.perms.filter (fun row => permMatches row none db.nextListId) = [] := by
            apply List.filter_eq_nil_iff.mpr
            intro row hrow hm
            exact hfresh row hrow ((permMatches_iff row none db.nextListId).mp hm).2
          have h2 : ([⟨none, db.nextListId, Role.owner⟩] : List PermRow).filter
              (fun row => permMatches row none db.nextListId)
              = [⟨none, db.nextListId, Role.owner⟩] := by
            simp [permMatches]
          rw [h1, h2]
          rfl
        have hr : hasRole Role.owner required = true := by cases required <;> decide
        unfold checkPermissions
        rw [hq]
        simp [hr]
  · rintro ⟨v, hjv⟩
    refine ⟨{ lists := db.lists ++ [(db.nextListId, body)],
              perms := db.perms ++
                [{ userId := none, listId := db.nextListId, role := .owner }],
              nextListId := db.nextListId + 1 }, db.nextListId, ?_⟩
    unfold postLists
    rw [hjv]

/-- Witness for C10: starting from an empty store, the anonymous `POST
/lists` with body `{name: "Groceries"}` succeeds. -/
theorem anonymous_list_creation_witness :
    ∃ db' listId,
      postLists { lists := [], perms := [], nextListId := 1 } none
        (some (.obj [("name", .str "Groceries")])) = .ok (db', listId) :=
  (anonymous_list_creation { lists := [], perms := [], nextListId := 1 }
      (some (.obj [("name", .str "Groceries")])) (by simp)).2.2
    ⟨some (.obj [("name", .str "Groceries")]), by
      rw [listsShape, jsonValidate_obj_eq]
      norm_num [minus, isOptionalKey, validateFields, validateField, lookupJs, joinPath,
        isSkippable, jsonValidate, shapeType, jsonType]
      rw [if_neg (by decide)]⟩

end Todo

